import Mathlib

/-!
Shallow embedding of src/executor/Executor.cpp (nebula graph query engine):
the executor-graph builder (Executor::create / Executor::makeExecutor), the
base executor lifecycle (open / close / finish / start / error) and the
execution-context slot discipline, together with proofs of the spec claims.
-/

set_option maxHeartbeats 1000000

namespace NebulaGraph

/-- Plan node kind tags of PlanNode::Kind, as enumerated by the kind dispatch
in the 2-argument overload Executor::makeExecutor (Executor.cpp lines 134-344). -/
inductive Kind
  | kUnknown
  | kPassThrough
  | kAggregate
  | kSort
  | kFilter
  | kGetEdges
  | kGetVertices
  | kGetNeighbors
  | kLimit
  | kProject
  | kIndexScan
  | kStart
  | kUnion
  | kIntersect
  | kMinus
  | kLoop
  | kSelect
  | kDedup
  | kSwitchSpace
  | kCreateSpace
  | kDescSpace
  | kShowSpaces
  | kDropSpace
  | kShowCreateSpace
  | kCreateTag
  | kDescTag
  | kAlterTag
  | kCreateEdge
  | kDescEdge
  | kAlterEdge
  | kShowTags
  | kShowEdges
  | kDropTag
  | kDropEdge
  | kShowCreateTag
  | kShowCreateEdge
  | kInsertVertices
  | kInsertEdges
  | kDataCollect
  | kCreateSnapshot
  | kDropSnapshot
  | kShowSnapshots
  | kDataJoin
  | kDeleteVertices
  | kDeleteEdges
  | kUpdateVertex
  | kUpdateEdge
  | kCreateUser
  | kDropUser
  | kUpdateUser
  | kGrantRole
  | kRevokeRole
  | kChangePassword
  | kListUserRoles
  | kListUsers
  | kListRoles
  | kBalanceLeaders
  | kBalance
  | kStopBalance
  | kShowBalance
  | kShowConfigs
  | kSetConfig
  | kGetConfig
  | kSubmitJob
  | kShowHosts
  | kShowParts
  | kShowCharset
  | kShowCollation
deriving DecidableEq

/-- The kind-to-constructor dispatch table of the 2-argument overload
Executor::makeExecutor (Executor.cpp lines 134-344): every known kind maps to
the concrete Executor subclass constructed for it; kUnknown falls through the
switch to LOG(FATAL) (line 342), modelled as none. -/
def executorClassName : Kind → Option String
  | .kPassThrough => some "PassThroughExecutor"
  | .kAggregate => some "AggregateExecutor"
  | .kSort => some "SortExecutor"
  | .kFilter => some "FilterExecutor"
  | .kGetEdges => some "GetEdgesExecutor"
  | .kGetVertices => some "GetVerticesExecutor"
  | .kGetNeighbors => some "GetNeighborsExecutor"
  | .kLimit => some "LimitExecutor"
  | .kProject => some "ProjectExecutor"
  | .kIndexScan => some "IndexScanExecutor"
  | .kStart => some "StartExecutor"
  | .kUnion => some "UnionExecutor"
  | .kIntersect => some "IntersectExecutor"
  | .kMinus => some "MinusExecutor"
  | .kLoop => some "LoopExecutor"
  | .kSelect => some "SelectExecutor"
  | .kDedup => some "DedupExecutor"
  | .kSwitchSpace => some "SwitchSpaceExecutor"
  | .kCreateSpace => some "CreateSpaceExecutor"
  | .kDescSpace => some "DescSpaceExecutor"
  | .kShowSpaces => some "ShowSpacesExecutor"
  | .kDropSpace => some "DropSpaceExecutor"
  | .kShowCreateSpace => some "ShowCreateSpaceExecutor"
  | .kCreateTag => some "CreateTagExecutor"
  | .kDescTag => some "DescTagExecutor"
  | .kAlterTag => some "AlterTagExecutor"
  | .kCreateEdge => some "CreateEdgeExecutor"
  | .kDescEdge => some "DescEdgeExecutor"
  | .kAlterEdge => some "AlterEdgeExecutor"
  | .kShowTags => some "ShowTagsExecutor"
  | .kShowEdges => some "ShowEdgesExecutor"
  | .kDropTag => some "DropTagExecutor"
  | .kDropEdge => some "DropEdgeExecutor"
  | .kShowCreateTag => some "ShowCreateTagExecutor"
  | .kShowCreateEdge => some "ShowCreateEdgeExecutor"
  | .kInsertVertices => some "InsertVerticesExecutor"
  | .kInsertEdges => some "InsertEdgesExecutor"
  | .kDataCollect => some "DataCollectExecutor"
  | .kCreateSnapshot => some "CreateSnapshotExecutor"
  | .kDropSnapshot => some "DropSnapshotExecutor"
  | .kShowSnapshots => some "ShowSnapshotsExecutor"
  | .kDataJoin => some "DataJoinExecutor"
  | .kDeleteVertices => some "DeleteVerticesExecutor"
  | .kDeleteEdges => some "DeleteEdgesExecutor"
  | .kUpdateVertex => some "UpdateVertexExecutor"
  | .kUpdateEdge => some "UpdateEdgeExecutor"
  | .kCreateUser => some "CreateUserExecutor"
  | .kDropUser => some "DropUserExecutor"
  | .kUpdateUser => some "UpdateUserExecutor"
  | .kGrantRole => some "GrantRoleExecutor"
  | .kRevokeRole => some "RevokeRoleExecutor"
  | .kChangePassword => some "ChangePasswordExecutor"
  | .kListUserRoles => some "ListUserRolesExecutor"
  | .kListUsers => some "ListUsersExecutor"
  | .kListRoles => some "ListRolesExecutor"
  | .kBalanceLeaders => some "BalanceLeadersExecutor"
  | .kBalance => some "BalanceExecutor"
  | .kStopBalance => some "StopBalanceExecutor"
  | .kShowBalance => some "ShowBalanceExecutor"
  | .kShowConfigs => some "ShowConfigsExecutor"
  | .kSetConfig => some "SetConfigExecutor"
  | .kGetConfig => some "GetConfigExecutor"
  | .kSubmitJob => some "SubmitJobExecutor"
  | .kShowHosts => some "ShowHostsExecutor"
  | .kShowParts => some "ShowPartsExecutor"
  | .kShowCharset => some "ShowCharsetExecutor"
  | .kShowCollation => some "ShowCollationExecutor"
  | .kUnknown => none

/-- A plan node: identity (int64_t id), kind tag, dependency node ids
(node->dependencies() / node->dep(k)), output variable name
(node->outputVar()), and the control children used by Select (then(),
otherwise()) and Loop (body()).  In C++ the control children are plan-node
pointers stored on the Select/Loop subclasses; here they are optional node
ids, present on nodes of the respective kinds. -/
structure PlanNode where
  id : Int
  kind : Kind
  deps : List Int
  outputVar : String
  thenId : Option Int
  elseId : Option Int
  bodyId : Option Int
deriving DecidableEq

/-- The plan DAG, as the collection of its nodes.  The C++ code holds nodes by
pointer; the embedding resolves the ids recorded in deps/thenId/elseId/bodyId
through this list. -/
abbrev Graph := List PlanNode

/-- Resolve a node id to its plan node (pointer dereference in C++). -/
def findNode : Graph → Int → Option PlanNode
  | [], _ => none
  | n :: rest, i => if n.id = i then some n else findNode rest i

/-- An iterator kind of a Result (Iterator::Kind); only the default
sequential kind is referenced in Executor.cpp. -/
inductive IterKind
  | kDefault
  | kGetNeighbors
  | kSequential
deriving DecidableEq

/-- Modelled from the spec: a Value is an opaque computed payload; the spec
only requires that a Result built from it has a size (its number of rows). -/
abbrev Value := List Nat

/-- Modelled from the spec: a Result is an opaque computed value plus an
iteration descriptor (context/Result.h is not part of this file's sources). -/
structure Result where
  value : Value
  iterKind : IterKind
deriving DecidableEq

/-- Modelled from the spec: the size of a Result, recorded by finish as the
row count. -/
def Result.size (r : Result) : Nat := r.value.length

/-- Modelled from the spec: ResultBuilder().value(v).iter(k).finish(). -/
def resultBuild (v : Value) (k : IterKind) : Result :=
  { value := v, iterKind := k }

/-- Modelled from the spec: the Execution Context is a mapping from variable
name to an optional Result; a slot that exists but was only declared holds
none (context/ExecutionContext.h is not part of this file's sources). -/
abbrev EContext := List (String × Option Result)

/-- Modelled from the spec: ExecutionContext::exist — the slot existence check. -/
def existVar : EContext → String → Bool
  | [], _ => false
  | (k, _) :: rest, n => if k = n then true else existVar rest n

/-- Modelled from the spec: ExecutionContext::initVar — declare an empty slot
for a name (only called by the Executor constructor when the slot is absent). -/
def initVar (ctx : EContext) (n : String) : EContext :=
  (n, none) :: ctx

/-- Modelled from the spec: ExecutionContext::setResult — overwrite the value
of the slot with the given name (or create the slot if absent). -/
def setVar : EContext → String → Result → EContext
  | [], n, r => [(n, some r)]
  | (k, v) :: rest, n, r =>
      if k = n then (k, some r) :: rest else (k, v) :: setVar rest n r

/-- Modelled from the spec: read a slot of the Execution Context. -/
def getVar : EContext → String → Option (Option Result)
  | [], _ => none
  | (k, v) :: rest, n => if k = n then some v else getVar rest n

/-- The build-phase view of one Executor instance held in the arena
(ObjectPool): its node identity (id_), the subclass name selected by the kind
dispatch, its node's output variable, the ordering edges declared by
dependsOn, and the control bodies attached by setThenBody / setElseBody /
setLoopBody.  Fields that only matter at run time live in RTState below. -/
structure Exec where
  nodeId : Int
  className : String
  outputVar : String
  depends : List Nat
  thenBody : Option Nat
  elseBody : Option Nat
  loopBody : Option Nat
deriving DecidableEq

/-- The state threaded through one Executor::create call: the memoization map
(the local unordered_map visited, node id to arena index), the arena of
executors (qctx->objPool(), append-only, indices are the identities of the
Executor instances) and the Execution Context touched by the Executor
constructor. -/
structure BuildState where
  visited : List (Int × Nat)
  arena : List Exec
  ectx : EContext
deriving DecidableEq

/-- Lookup in the memoization map (visited->find(node->id())). -/
def lookupV : List (Int × Nat) → Int → Option Nat
  | [], _ => none
  | (k, v) :: rest, i => if k = i then some v else lookupV rest i

/-- Insertion into the memoization map (visited->insert({node->id(), exec})):
std::unordered_map::insert does nothing when the key is already present. -/
def insertV (m : List (Int × Nat)) (k : Int) (v : Nat) : List (Int × Nat) :=
  match lookupV m k with
  | some _ => m
  | none => (k, v) :: m

/-- Update the arena entry at one index in place. -/
def listUpd : List Exec → Nat → (Exec → Exec) → List Exec
  | [], _, _ => []
  | e :: rest, 0, f => f e :: rest
  | e :: rest, n + 1, f => e :: listUpd rest n f

/-- Apply an in-place update to the executor at arena index i. -/
def updExec (σ : BuildState) (i : Nat) (f : Exec → Exec) : BuildState :=
  { σ with arena := listUpd σ.arena i f }

/-- exec->dependsOn(dep): record an ordering edge (Executor.cpp lines 113, 119). -/
def dependsOn (σ : BuildState) (i dep : Nat) : BuildState :=
  updExec σ i fun e => { e with depends := e.depends ++ [dep] }

/-- selectExecutor->setThenBody(thenBody) (Executor.cpp line 104). -/
def setThenBody (σ : BuildState) (i t : Nat) : BuildState :=
  updExec σ i fun e => { e with thenBody := some t }

/-- selectExecutor->setElseBody(elseBody) (Executor.cpp line 105). -/
def setElseBody (σ : BuildState) (i t : Nat) : BuildState :=
  updExec σ i fun e => { e with elseBody := some t }

/-- loopExecutor->setLoopBody(body) (Executor.cpp line 110). -/
def setLoopBody (σ : BuildState) (i t : Nat) : BuildState :=
  updExec σ i fun e => { e with loopBody := some t }

/-- Build-phase errors.  fatalUnknownKind and fatalArity are the two
LOG(FATAL) sites (Executor.cpp lines 122-125 and 342); outOfFuel and badGraph
are artifacts of the embedding (the C++ recursion carries no fuel, and node
pointers cannot dangle). -/
inductive BuildErr
  | fatalUnknownKind
  | fatalArity (n : Nat)
  | outOfFuel
  | badGraph
deriving DecidableEq

/-- The executor-construction step of one frame: the kind dispatch of the
2-argument Executor::makeExecutor overload (returning LOG(FATAL) as
fatalUnknownKind when no constructor is mapped), pool->add appending the new
instance to the arena, and the Executor constructor declaring the node's
output-variable slot in the Execution Context when absent (Executor.cpp
lines 346-357).  Returns the arena index of the new executor. -/
def constructExec (σ : BuildState) (node : PlanNode) :
    Except BuildErr (Nat × BuildState) :=
  match executorClassName node.kind with
  | none => .error .fatalUnknownKind
  | some nm =>
    let e : Exec :=
      { nodeId := node.id, className := nm, outputVar := node.outputVar,
        depends := [], thenBody := none, elseBody := none, loopBody := none }
    let ectx1 :=
      if existVar σ.ectx node.outputVar then σ.ectx
      else initVar σ.ectx node.outputVar
    .ok (σ.arena.length, { σ with arena := σ.arena ++ [e], ectx := ectx1 })

/-- The control-child construction inside the one-dependency case of the
3-argument Executor::makeExecutor (Executor.cpp lines 99-111): a Select node
builds its then and otherwise sub-graphs and attaches them, a Loop node
builds and attaches its body sub-graph, all other kinds do nothing.  mk is
the recursive call at the smaller fuel. -/
def buildCtl (mk : Int → BuildState → Except BuildErr (Nat × BuildState))
    (node : PlanNode) (i : Nat) (σ1 : BuildState) :
    Except BuildErr BuildState :=
  if node.kind = Kind.kSelect then
    match node.thenId, node.elseId with
    | some t, some e =>
      match mk t σ1 with
      | .error err => .error err
      | .ok (ti, σt) =>
        match mk e σt with
        | .error err => .error err
        | .ok (ei, σe) => .ok (setElseBody (setThenBody σe i ti) i ei)
    | _, _ => .error .badGraph
  else if node.kind = Kind.kLoop then
    match node.bodyId with
    | some b =>
      match mk b σ1 with
      | .error err => .error err
      | .ok (bi, σb) => .ok (setLoopBody σb i bi)
    | none => .error .badGraph
  else .ok σ1

/-- The dependency-arity switch of the 3-argument Executor::makeExecutor
(Executor.cpp lines 93-127): 0 dependencies links nothing; 1 dependency
first runs the Select/Loop control-child construction, then builds the
single predecessor and declares the ordering edge; 2 dependencies builds
both predecessors and declares both edges; any other arity is the
LOG(FATAL) default case. -/
def linkDeps (mk : Int → BuildState → Except BuildErr (Nat × BuildState))
    (node : PlanNode) (i : Nat) (σ1 : BuildState) :
    Except BuildErr BuildState :=
  match node.deps with
  | [] => .ok σ1
  | [d0] =>
    match buildCtl mk node i σ1 with
    | .error err => .error err
    | .ok σa =>
      match mk d0 σa with
      | .error err => .error err
      | .ok (di, σd) => .ok (dependsOn σd i di)
  | [d0, d1] =>
    match mk d0 σ1 with
    | .error err => .error err
    | .ok (li, σl) =>
      match mk d1 σl with
      | .error err => .error err
      | .ok (ri, σr) => .ok (dependsOn (dependsOn σr i li) i ri)
  | _ => .error (.fatalArity node.deps.length)

/-- The tail of one makeExecutor frame (Executor.cpp lines 129-130): insert
the constructed executor into the memoization map and return it. -/
def finishFrame (nid : Int) (i : Nat) :
    Except BuildErr BuildState → Except BuildErr (Nat × BuildState)
  | .error e => .error e
  | .ok σ2 => .ok (i, { σ2 with visited := insertV σ2.visited nid i })

/-- The 3-argument Executor::makeExecutor (Executor.cpp lines 82-131): a
memoization-map hit returns the memoized executor unchanged; otherwise the
frame constructs the executor by kind, links control children and
dependencies recursively, and inserts the executor into the map before
returning it.  The fuel argument bounds the recursion depth (the C++
recursion is unbounded; any acyclic graph is fully built once fuel exceeds
its depth). -/
def makeExecutor : Nat → Graph → Int → BuildState →
    Except BuildErr (Nat × BuildState)
  | 0, _, _, _ => .error .outOfFuel
  | fuel + 1, g, nid, σ =>
    match lookupV σ.visited nid with
    | some i => .ok (i, σ)
    | none =>
      match findNode g nid with
      | none => .error .badGraph
      | some node =>
        match constructExec σ node with
        | .error e => .error e
        | .ok (i, σ1) =>
          finishFrame nid i (linkDeps (makeExecutor fuel g) node i σ1)

/-- Executor::create (Executor.cpp lines 76-79): start from an empty
memoization map and an empty arena, with the query context's initial
Execution Context. -/
def Executor.create (fuel : Nat) (g : Graph) (root : Int) (ectx0 : EContext) :
    Except BuildErr (Nat × BuildState) :=
  makeExecutor fuel g root { visited := [], arena := [], ectx := ectx0 }

/-- Replay of one Executor::makeExecutor frame (Executor.cpp lines 87-120) up
to the point where the first recursive call of the frame is issued, returning
the memoization map passed to that call: none when no recursive call happens
(memoized hit, unresolved node, fatal kind, or zero / more-than-two
dependencies — in the LOG(FATAL) default case the process dies before any
recursion).  Between the entry lookup and the first recursive call the source
only runs the construction of the executor (line 92), which does not touch
the map. -/
def visitedAtDepCall (g : Graph) (nid : Int) (σ : BuildState) :
    Option (List (Int × Nat)) :=
  match lookupV σ.visited nid with
  | some _ => none
  | none =>
    match findNode g nid with
    | none => none
    | some node =>
      match constructExec σ node with
      | .error _ => none
      | .ok (_, σ1) =>
        if node.deps.length = 1 ∨ node.deps.length = 2 then some σ1.visited
        else none

/-- A Status value as used by the lifecycle functions: Status::OK() or an
error status (the error payload is opaque here). -/
inductive Status
  | ok
  | err (msg : String)
deriving DecidableEq

/-- ExecutionError(status): the wrapper applied by Executor::error before
surfacing a failure through the asynchronous chain. -/
structure ExecutionError where
  status : Status
deriving DecidableEq

/-- The value carried by a resolved folly::Future of Status: either a plain
Status value (folly::makeFuture(status)) or an ExecutionError exception
(folly::makeFuture of the ExecutionError, as in Executor::error). -/
inductive FutureVal
  | value (s : Status)
  | exception (e : ExecutionError)
deriving DecidableEq

/-- A folly::Future of Status as produced by the combinators in this file:
already resolved, carrying a FutureVal, scheduled via .via(runner()). -/
structure Future where
  resolved : Bool
  val : FutureVal
  viaRunner : Bool
deriving DecidableEq

/-- The per-node statistics record published by Executor::close
(cpp2::ProfilingStats, Executor.cpp lines 369-372). -/
structure ProfilingStats where
  totalDurationInUs : Nat
  rows : Nat
  execDurationInUs : Nat
deriving DecidableEq

/-- The run-time state of one executor together with the shared query-level
state it touches: the executor's run-scoped counters (numRows_, execTime_,
the start tick of totalDuration_), its node identity and output variable,
the Execution Context, and the Profiling Sink entries accumulated through
qctx->addProfilingData.  Wall-clock time is modelled by passing the current
tick to the operations that read or reset the timer. -/
structure RTState where
  nodeId : Int
  outputVar : String
  numRows : Nat
  execTime : Nat
  timerStart : Nat
  ectx : EContext
  profile : List (Int × ProfilingStats)
deriving DecidableEq

/-- Executor::open (Executor.cpp lines 361-366): reset the row counter and
the exec-duration counter and restart the wall-clock timer; returns
Status::OK(). -/
def Executor.openExec (now : Nat) (s : RTState) : Status × RTState :=
  (Status.ok, { s with numRows := 0, execTime := 0, timerStart := now })

/-- Executor::close (Executor.cpp lines 368-375): read the elapsed wall-clock
time, publish the accumulated statistics to the Profiling Sink keyed by the
node identity, and return Status::OK(). -/
def Executor.close (now : Nat) (s : RTState) : Status × RTState :=
  let stats : ProfilingStats :=
    { totalDurationInUs := now - s.timerStart,
      rows := s.numRows,
      execDurationInUs := s.execTime }
  (Status.ok, { s with profile := s.profile ++ [(s.nodeId, stats)] })

/-- Executor::finish(Result&&) (Executor.cpp lines 385-389): record the
result's size as the row count, store the result in the Execution Context
under the node's output variable, and return Status::OK(). -/
def Executor.finish (r : Result) (s : RTState) : Status × RTState :=
  (Status.ok,
   { s with numRows := r.size, ectx := setVar s.ectx s.outputVar r })

/-- Executor::finish(Value&&) (Executor.cpp lines 391-393): wrap the value in
a Result with the default iterator kind and delegate to finish(Result&&). -/
def Executor.finishValue (v : Value) (s : RTState) : Status × RTState :=
  Executor.finish (resultBuild v IterKind.kDefault) s

/-- Executor::start (Executor.cpp lines 377-379): an already-resolved future
carrying the plain status, scheduled via the task runner. -/
def Executor.start (s : Status) : Future :=
  { resolved := true, val := FutureVal.value s, viaRunner := true }

/-- Executor::error (Executor.cpp lines 381-383): an already-resolved future
carrying the status wrapped in an ExecutionError, scheduled via the task
runner. -/
def Executor.error (s : Status) : Future :=
  { resolved := true, val := FutureVal.exception { status := s }, viaRunner := true }

/-! Verification-layer definitions. -/

/-- Number of arena entries whose node identity is the given id. -/
def countId : List Exec → Int → Nat
  | [], _ => 0
  | e :: rest, i => (if e.nodeId = i then 1 else 0) + countId rest i

/-- Number of occurrences of an id in a list of ids. -/
def countL : List Int → Int → Nat
  | [], _ => 0
  | a :: rest, i => (if a = i then 1 else 0) + countL rest i

/-- All node ids the builder may recurse into from a node: its dependencies
and its Select / Loop control children. -/
def nodeChildren (n : PlanNode) : List Int :=
  n.deps ++ (n.thenId.toList ++ (n.elseId.toList ++ n.bodyId.toList))

/-- A ranking witnessing that the plan graph is a DAG: every builder edge
strictly decreases the rank. -/
abbrev Ranked (g : Graph) (rank : Int → Nat) : Prop :=
  ∀ n ∈ g, ∀ c ∈ nodeChildren n, rank c < rank n.id

/-- Memoization-map entries point inside the arena. -/
def refsOK (σ : BuildState) : Prop :=
  ∀ id i, lookupV σ.visited id = some i → i < σ.arena.length

/-- Every executor in the arena has its output-variable slot declared in the
Execution Context. -/
def outOK (σ : BuildState) : Prop :=
  ∀ e ∈ σ.arena, existVar σ.ectx e.outputVar = true

/-- Memoization-map entries point to an arena executor of the same node
identity. -/
def ptrOK (σ : BuildState) : Prop :=
  ∀ id i, lookupV σ.visited id = some i →
    ∃ h : i < σ.arena.length, (σ.arena.get ⟨i, h⟩).nodeId = id

/-- Counting invariant of the build: with A the multiset of node ids whose
frames are currently in flight, each id owns one arena executor when it is
memoized or in flight, and none otherwise. -/
def cntOK (σ : BuildState) (A : List Int) : Prop :=
  ∀ id, countId σ.arena id =
    (if (lookupV σ.visited id).isSome then 1 else 0) + countL A id

/-- The unconditional facts established by one successful makeExecutor call:
the arena only grows and existing entries are untouched, the memoization map
and the set of declared Execution-Context slots only grow, map entries keep
pointing inside the arena, the returned index is in range, and arena-wide
slot declaration is preserved. -/
def BasicConcl (σ : BuildState) (r : Nat) (σ' : BuildState) : Prop :=
  σ.arena.length ≤ σ'.arena.length ∧
  (∀ j (h : j < σ.arena.length) (h' : j < σ'.arena.length),
      σ'.arena.get ⟨j, h'⟩ = σ.arena.get ⟨j, h⟩) ∧
  (∀ id j, lookupV σ.visited id = some j → lookupV σ'.visited id = some j) ∧
  (∀ v, existVar σ.ectx v = true → existVar σ'.ectx v = true) ∧
  (refsOK σ → refsOK σ' ∧ r < σ'.arena.length) ∧
  (outOK σ → outOK σ')

/-- A build function all of whose successful runs satisfy BasicConcl. -/
def MkSpec (mk : Int → BuildState → Except BuildErr (Nat × BuildState)) : Prop :=
  ∀ c σ r σ', mk c σ = .ok (r, σ') → BasicConcl σ r σ'

/-- An arena update that preserves the node identity and the output variable
of the entry it touches (all four in-place updates of the builder do). -/
def FPres (f : Exec → Exec) : Prop :=
  ∀ e, (f e).nodeId = e.nodeId ∧ (f e).outputVar = e.outputVar

/-- The facts established by the part of a frame that runs after the frame's
own executor (at arena index i) has been constructed: arena entries other
than i are untouched, node identities are preserved everywhere, and the map,
slot and range invariants are preserved. -/
def StepConcl (i : Nat) (σ σ' : BuildState) : Prop :=
  σ.arena.length ≤ σ'.arena.length ∧
  (∀ j (h : j < σ.arena.length) (h' : j < σ'.arena.length), j ≠ i →
      σ'.arena.get ⟨j, h'⟩ = σ.arena.get ⟨j, h⟩) ∧
  (∀ j (h : j < σ.arena.length) (h' : j < σ'.arena.length),
      (σ'.arena.get ⟨j, h'⟩).nodeId = (σ.arena.get ⟨j, h⟩).nodeId) ∧
  (∀ id j, lookupV σ.visited id = some j → lookupV σ'.visited id = some j) ∧
  (∀ v, existVar σ.ectx v = true → existVar σ'.ectx v = true) ∧
  (refsOK σ → refsOK σ') ∧
  (outOK σ → outOK σ')

/-- A build function all of whose successful runs preserve the pointer and
counting invariants, return the index now memoized for the requested node,
and only add memoization keys of rank at most the requested node's rank. -/
def MkMain (rank : Int → Nat)
    (mk : Int → BuildState → Except BuildErr (Nat × BuildState)) : Prop :=
  ∀ c σ A r σ', ptrOK σ → cntOK σ A → (∀ a ∈ A, rank c < rank a) →
    mk c σ = .ok (r, σ') →
    ptrOK σ' ∧ cntOK σ' A ∧ lookupV σ'.visited c = some r ∧
    (∀ id, (lookupV σ'.visited id).isSome →
      (lookupV σ.visited id).isSome ∨ rank id ≤ rank c)

/-- A leaf plan node of the Start kind. -/
def nStart (i : Int) (v : String) : PlanNode :=
  { id := i, kind := Kind.kStart, deps := [], outputVar := v,
    thenId := none, elseId := none, bodyId := none }

/-- A plan node without control children. -/
def nPlain (i : Int) (k : Kind) (ds : List Int) (v : String) : PlanNode :=
  { id := i, kind := k, deps := ds, outputVar := v,
    thenId := none, elseId := none, bodyId := none }

/-- Two-node chain: node 1 (Project) depends on node 0 (Start). -/
def gChain : Graph :=
  [nStart 0 "v0", nPlain 1 Kind.kProject [0] "v1"]

/-- Diamond-shaped plan: node 3 (DataJoin) depends on nodes 1 (Project) and
2 (Filter), both of which depend on the shared node 0 (Start). -/
def gDiamond : Graph :=
  [nStart 0 "v0", nPlain 1 Kind.kProject [0] "v1",
   nPlain 2 Kind.kFilter [0] "v2", nPlain 3 Kind.kDataJoin [1, 2] "v3"]

/-- A Select node (id 10) with one dependency (node 1) and control children
2 (then) and 3 (otherwise), plus a Loop node (id 20) with dependency 4 and
body 5. -/
def gCtl : Graph :=
  [nStart 1 "a", nStart 2 "b", nStart 3 "c", nStart 4 "d", nStart 5 "e",
   { id := 10, kind := Kind.kSelect, deps := [1], outputVar := "vs",
     thenId := some 2, elseId := some 3, bodyId := none },
   { id := 20, kind := Kind.kLoop, deps := [4], outputVar := "vl",
     thenId := none, elseId := none, bodyId := some 5 }]

/-- A node of unmapped kind and a node of dependency arity 3. -/
def gBad : Graph :=
  [nStart 1 "a", nStart 2 "b", nStart 3 "c",
   nPlain 7 Kind.kUnknown [] "x",
   nPlain 8 Kind.kProject [1, 2, 3] "y"]

/-- The empty initial build state over a given Execution Context. -/
def initState (ectx0 : EContext) : BuildState :=
  { visited := [], arena := [], ectx := ectx0 }

/-- Whether a build result is a success. -/
def isOkE : Except BuildErr (Nat × BuildState) → Bool
  | .ok _ => true
  | .error _ => false

/-- Whether a successful build result has memoized the given node id. -/
def visitedHas (res : Except BuildErr (Nat × BuildState)) (id : Int) : Bool :=
  match res with
  | .ok (_, σ) => (lookupV σ.visited id).isSome
  | .error _ => false

/-! Low-level lemmas about the map, arena and context primitives. -/

theorem lookupV_insertV_self {m : List (Int × Nat)} {k : Int} {v : Nat}
    (h : lookupV m k = none) : lookupV (insertV m k v) k = some v := by
  simp [insertV, h, lookupV]

theorem lookupV_insertV_ne {m : List (Int × Nat)} {k id : Int} {v : Nat}
    (h : id ≠ k) : lookupV (insertV m k v) id = lookupV m id := by
  unfold insertV
  cases hk : lookupV m k with
  | some w => rfl
  | none => simp [lookupV, Ne.symm h]

theorem lookupV_insertV_mono {m : List (Int × Nat)} {k id : Int} {v j : Nat}
    (h : lookupV m id = some j) : lookupV (insertV m k v) id = some j := by
  by_cases hik : id = k
  · subst hik
    unfold insertV
    rw [h]
    exact h
  · rw [lookupV_insertV_ne hik, h]

theorem listUpd_length (l : List Exec) (i : Nat) (f : Exec → Exec) :
    (listUpd l i f).length = l.length := by
  induction l generalizing i with
  | nil => rfl
  | cons e rest ih =>
    cases i with
    | zero => simp [listUpd]
    | succ n => simp [listUpd, ih]

theorem listUpd_get_ne (l : List Exec) (i : Nat) (f : Exec → Exec)
    (j : Nat) (h : j < l.length) (h' : j < (listUpd l i f).length)
    (hne : j ≠ i) :
    (listUpd l i f).get ⟨j, h'⟩ = l.get ⟨j, h⟩ := by
  induction l generalizing i j with
  | nil => cases h
  | cons e rest ih =>
    cases i with
    | zero =>
      cases j with
      | zero => exact absurd rfl hne
      | succ jj => simp [listUpd]
    | succ n =>
      cases j with
      | zero => simp [listUpd]
      | succ jj =>
        simp only [listUpd, List.get_cons_succ]
        exact ih n jj _ _ (by omega)

theorem listUpd_get_self (l : List Exec) (i : Nat) (f : Exec → Exec)
    (h : i < l.length) (h' : i < (listUpd l i f).length) :
    (listUpd l i f).get ⟨i, h'⟩ = f (l.get ⟨i, h⟩) := by
  induction l generalizing i with
  | nil => cases h
  | cons e rest ih =>
    cases i with
    | zero => simp [listUpd]
    | succ n =>
      simp only [listUpd, List.get_cons_succ]
      exact ih n _ _

theorem countId_append (l1 l2 : List Exec) (i : Int) :
    countId (l1 ++ l2) i = countId l1 i + countId l2 i := by
  induction l1 with
  | nil => simp [countId]
  | cons e rest ih => simp [countId, ih]; omega

theorem countId_listUpd (l : List Exec) (i : Nat) (f : Exec → Exec)
    (hf : ∀ e, (f e).nodeId = e.nodeId) (id : Int) :
    countId (listUpd l i f) id = countId l id := by
  induction l generalizing i with
  | nil => rfl
  | cons e rest ih =>
    cases i with
    | zero => simp [listUpd, countId, hf]
    | succ n => simp [listUpd, countId, ih]

theorem countL_eq_zero {A : List Int} {i : Int} (h : i ∉ A) :
    countL A i = 0 := by
  induction A with
  | nil => rfl
  | cons a rest ih =>
    simp only [List.mem_cons, not_or] at h
    simp [countL, Ne.symm h.1, ih h.2]

theorem countL_cons_self (A : List Int) (i : Int) :
    countL (i :: A) i = countL A i + 1 := by
  simp [countL]; omega

theorem countL_cons_ne {a i : Int} (A : List Int) (h : i ≠ a) :
    countL (a :: A) i = countL A i := by
  simp [countL, Ne.symm h]

theorem existVar_initVar_self (ctx : EContext) (n : String) :
    existVar (initVar ctx n) n = true := by
  simp [initVar, existVar]

theorem existVar_initVar_mono (ctx : EContext) (n v : String)
    (h : existVar ctx v = true) : existVar (initVar ctx n) v = true := by
  by_cases hn : n = v <;> simp [initVar, existVar, hn, h]

theorem findNode_mem {g : Graph} {i : Int} {n : PlanNode}
    (h : findNode g i = some n) : n ∈ g ∧ n.id = i := by
  induction g with
  | nil => cases h
  | cons m rest ih =>
    unfold findNode at h
    by_cases hm : m.id = i
    · simp only [hm, if_pos rfl] at h
      cases h
      exact ⟨List.mem_cons_self _ _, hm⟩
    · rw [if_neg hm] at h
      rcases ih h with ⟨h1, h2⟩
      exact ⟨List.mem_cons_of_mem _ h1, h2⟩

theorem constructExec_ok {σ : BuildState} {node : PlanNode} {i : Nat}
    {σ1 : BuildState} (h : constructExec σ node = .ok (i, σ1)) :
    i = σ.arena.length ∧
    σ1.visited = σ.visited ∧
    (∃ nm, executorClassName node.kind = some nm ∧
      σ1.arena = σ.arena ++
        [{ nodeId := node.id, className := nm, outputVar := node.outputVar,
           depends := [], thenBody := none, elseBody := none,
           loopBody := none }]) ∧
    σ1.ectx = (if existVar σ.ectx node.outputVar then σ.ectx
               else initVar σ.ectx node.outputVar) := by
  unfold constructExec at h
  cases hcn : executorClassName node.kind with
  | none => rw [hcn] at h; cases h
  | some nm =>
    rw [hcn] at h
    simp only [Except.ok.injEq, Prod.mk.injEq] at h
    refine ⟨h.1.symm, ?_, ⟨nm, rfl, ?_⟩, ?_⟩ <;> rw [← h.2]

theorem lookupV_insertV (m : List (Int × Nat)) (k : Int) (v : Nat) (id : Int) :
    lookupV (insertV m k v) id = lookupV m id ∨
    (id = k ∧ lookupV m k = none ∧ lookupV (insertV m k v) id = some v) := by
  by_cases hik : id = k
  · subst hik
    cases hm : lookupV m id with
    | some w =>
      left
      unfold insertV
      rw [hm]
      exact hm
    | none => right; exact ⟨rfl, rfl, lookupV_insertV_self hm⟩
  · left; exact lookupV_insertV_ne hik

theorem listUpd_get_nodeId (l : List Exec) (i : Nat) (f : Exec → Exec)
    (hf : FPres f) (j : Nat) (h : j < l.length)
    (h' : j < (listUpd l i f).length) :
    ((listUpd l i f).get ⟨j, h'⟩).nodeId = (l.get ⟨j, h⟩).nodeId := by
  by_cases hji : j = i
  · subst hji
    rw [listUpd_get_self l j f h h']
    exact (hf _).1
  · rw [listUpd_get_ne l i f j h h' hji]

theorem listUpd_mem {l : List Exec} {f : Exec → Exec}
    (hf : FPres f) :
    ∀ (i : Nat), ∀ e ∈ listUpd l i f,
      ∃ e0 ∈ l, e.nodeId = e0.nodeId ∧ e.outputVar = e0.outputVar := by
  induction l with
  | nil => intro i e he; cases he
  | cons a rest ih =>
    intro i e he
    cases i with
    | zero =>
      rcases List.mem_cons.1 he with hh | hh
      · exact ⟨a, List.mem_cons_self _ _, by rw [hh]; exact (hf a).1,
          by rw [hh]; exact (hf a).2⟩
      · exact ⟨e, List.mem_cons_of_mem _ hh, rfl, rfl⟩
    | succ n =>
      rcases List.mem_cons.1 he with hh | hh
      · exact ⟨a, List.mem_cons_self _ _, by rw [hh], by rw [hh]⟩
      · rcases ih n e hh with ⟨e0, he0, h1, h2⟩
        exact ⟨e0, List.mem_cons_of_mem _ he0, h1, h2⟩

theorem updExec_step (σ : BuildState) (i : Nat) (f : Exec → Exec)
    (hf : FPres f) : StepConcl i σ (updExec σ i f) := by
  have hlen : (updExec σ i f).arena.length = σ.arena.length :=
    listUpd_length _ _ _
  refine ⟨le_of_eq hlen.symm, ?_, ?_, ?_, ?_, ?_, ?_⟩
  · intro j h h' hne; exact listUpd_get_ne _ _ _ _ h h' hne
  · intro j h h'; exact listUpd_get_nodeId _ _ _ hf _ h h'
  · intro id j h; exact h
  · intro v h; exact h
  · intro hr id j h; rw [hlen]; exact hr id j h
  · intro ho e he
    rcases listUpd_mem hf i e he with ⟨e0, he0, _, hov⟩
    rw [hov]
    exact ho e0 he0

theorem setThenBody_step (σ : BuildState) (i t : Nat) :
    StepConcl i σ (setThenBody σ i t) :=
  updExec_step σ i _ fun _ => ⟨rfl, rfl⟩

theorem setElseBody_step (σ : BuildState) (i t : Nat) :
    StepConcl i σ (setElseBody σ i t) :=
  updExec_step σ i _ fun _ => ⟨rfl, rfl⟩

theorem setLoopBody_step (σ : BuildState) (i t : Nat) :
    StepConcl i σ (setLoopBody σ i t) :=
  updExec_step σ i _ fun _ => ⟨rfl, rfl⟩

theorem dependsOn_step (σ : BuildState) (i d : Nat) :
    StepConcl i σ (dependsOn σ i d) :=
  updExec_step σ i _ fun _ => ⟨rfl, rfl⟩

theorem stepConcl_refl (i : Nat) (σ : BuildState) : StepConcl i σ σ :=
  ⟨le_refl _, fun _ _ _ _ => rfl, fun _ _ _ => rfl, fun _ _ h => h,
   fun _ h => h, fun h => h, fun h => h⟩

theorem stepConcl_trans {i : Nat} {σ1 σ2 σ3 : BuildState}
    (h12 : StepConcl i σ1 σ2) (h23 : StepConcl i σ2 σ3) :
    StepConcl i σ1 σ3 := by
  obtain ⟨l12, g12, n12, v12, s12, r12, o12⟩ := h12
  obtain ⟨l23, g23, n23, v23, s23, r23, o23⟩ := h23
  refine ⟨le_trans l12 l23, ?_, ?_, fun id j h => v23 _ _ (v12 _ _ h),
    fun v h => s23 _ (s12 _ h), fun h => r23 (r12 h), fun h => o23 (o12 h)⟩
  · intro j h h' hne
    have h2 : j < σ2.arena.length := lt_of_lt_of_le h l12
    rw [g23 j h2 h' hne, g12 j h h2 hne]
  · intro j h h'
    have h2 : j < σ2.arena.length := lt_of_lt_of_le h l12
    rw [n23 j h2 h', n12 j h h2]

theorem basicConcl_toStep {σ : BuildState} {r : Nat} {σ' : BuildState}
    (i : Nat) (hb : BasicConcl σ r σ') : StepConcl i σ σ' := by
  obtain ⟨hl, hg, hv, hs, hr, ho⟩ := hb
  exact ⟨hl, fun j h h' _ => hg j h h', fun j h h' => by rw [hg j h h'],
    hv, hs, fun h => (hr h).1, ho⟩

theorem buildCtl_step {mk : Int → BuildState → Except BuildErr (Nat × BuildState)}
    {node : PlanNode} {i : Nat} {σ1 σa : BuildState} (hmk : MkSpec mk)
    (h : buildCtl mk node i σ1 = .ok σa) : StepConcl i σ1 σa := by
  unfold buildCtl at h
  by_cases hsel : node.kind = Kind.kSelect
  · rw [if_pos hsel] at h
    cases ht : node.thenId with
    | none => simp only [ht] at h; exact Except.noConfusion h
    | some t =>
      cases he : node.elseId with
      | none => simp only [ht, he] at h; exact Except.noConfusion h
      | some e =>
        simp only [ht, he] at h
        cases hmt : mk t σ1 with
        | error err => simp only [hmt] at h; exact Except.noConfusion h
        | ok p =>
          obtain ⟨ti, σt⟩ := p
          simp only [hmt] at h
          cases hme : mk e σt with
          | error err => simp only [hme] at h; exact Except.noConfusion h
          | ok q =>
            obtain ⟨ei, σe⟩ := q
            simp only [hme] at h
            have h2 := Except.ok.inj h
            rw [← h2]
            exact stepConcl_trans (basicConcl_toStep i (hmk _ _ _ _ hmt))
              (stepConcl_trans (basicConcl_toStep i (hmk _ _ _ _ hme))
                (stepConcl_trans (setThenBody_step σe i ti)
                  (setElseBody_step (setThenBody σe i ti) i ei)))
  · rw [if_neg hsel] at h
    by_cases hloop : node.kind = Kind.kLoop
    · rw [if_pos hloop] at h
      cases hb : node.bodyId with
      | none => simp only [hb] at h; exact Except.noConfusion h
      | some b =>
        simp only [hb] at h
        cases hmb : mk b σ1 with
        | error err => simp only [hmb] at h; exact Except.noConfusion h
        | ok p =>
          obtain ⟨bi, σb⟩ := p
          simp only [hmb] at h
          have h2 := Except.ok.inj h
          rw [← h2]
          exact stepConcl_trans (basicConcl_toStep i (hmk _ _ _ _ hmb))
            (setLoopBody_step σb i bi)
    · rw [if_neg hloop] at h
      have h2 := Except.ok.inj h
      rw [← h2]
      exact stepConcl_refl _ _

theorem linkDeps_step {mk : Int → BuildState → Except BuildErr (Nat × BuildState)}
    {node : PlanNode} {i : Nat} {σ1 σ2 : BuildState} (hmk : MkSpec mk)
    (h : linkDeps mk node i σ1 = .ok σ2) : StepConcl i σ1 σ2 := by
  unfold linkDeps at h
  cases hd : node.deps with
  | nil =>
    simp only [hd] at h
    have h2 := Except.ok.inj h
    rw [← h2]
    exact stepConcl_refl _ _
  | cons d0 rest =>
    cases hr : rest with
    | nil =>
      simp only [hd, hr] at h
      cases hctl : buildCtl mk node i σ1 with
      | error err => simp only [hctl] at h; exact Except.noConfusion h
      | ok σa =>
        simp only [hctl] at h
        cases hmd : mk d0 σa with
        | error err => simp only [hmd] at h; exact Except.noConfusion h
        | ok p =>
          obtain ⟨di, σd⟩ := p
          simp only [hmd] at h
          have h2 := Except.ok.inj h
          rw [← h2]
          exact stepConcl_trans (buildCtl_step hmk hctl)
            (stepConcl_trans (basicConcl_toStep i (hmk _ _ _ _ hmd))
              (dependsOn_step σd i di))
    | cons d1 rest2 =>
      cases hr2 : rest2 with
      | nil =>
        simp only [hd, hr, hr2] at h
        cases hml : mk d0 σ1 with
        | error err => simp only [hml] at h; exact Except.noConfusion h
        | ok p =>
          obtain ⟨li, σl⟩ := p
          simp only [hml] at h
          cases hmr : mk d1 σl with
          | error err => simp only [hmr] at h; exact Except.noConfusion h
          | ok q =>
            obtain ⟨ri, σr⟩ := q
            simp only [hmr] at h
            have h2 := Except.ok.inj h
            rw [← h2]
            exact stepConcl_trans (basicConcl_toStep i (hmk _ _ _ _ hml))
              (stepConcl_trans (basicConcl_toStep i (hmk _ _ _ _ hmr))
                (stepConcl_trans (dependsOn_step σr i li)
                  (dependsOn_step (dependsOn σr i li) i ri)))
      | cons d2 rest3 =>
        simp only [hd, hr, hr2] at h
        exact Except.noConfusion h

theorem get_congr_list {l l2 : List Exec} (hll : l = l2) (j : Nat)
    (h : j < l.length) (h2 : j < l2.length) :
    l.get ⟨j, h⟩ = l2.get ⟨j, h2⟩ := by
  subst hll; rfl

theorem get_append_left (l1 l2 : List Exec) (j : Nat) (h : j < l1.length)
    (h2 : j < (l1 ++ l2).length) :
    (l1 ++ l2).get ⟨j, h2⟩ = l1.get ⟨j, h⟩ := by
  induction l1 generalizing j with
  | nil => cases h
  | cons a rest ih =>
    cases j with
    | zero => rfl
    | succ n => exact ih n (Nat.lt_of_succ_lt_succ h) _

/-- Every successful run of the builder satisfies the unconditional
invariants of BasicConcl, at every fuel. -/
theorem buildBasic (fuel : Nat) (g : Graph) : MkSpec (makeExecutor fuel g) := by
  induction fuel with
  | zero =>
    intro c σ r σ' h
    exact Except.noConfusion h
  | succ fuel ih =>
    intro nid σ r σ' h
    rw [makeExecutor] at h
    cases hl : lookupV σ.visited nid with
    | some i =>
      simp only [hl] at h
      have h2 := Except.ok.inj h
      cases h2
      exact ⟨le_refl _, fun j hj hj2 => rfl, fun id j hh => hh, fun v hh => hh,
        fun hr => ⟨hr, hr _ _ hl⟩, fun ho => ho⟩
    | none =>
      simp only [hl] at h
      cases hf : findNode g nid with
      | none => simp only [hf] at h; exact Except.noConfusion h
      | some node =>
        simp only [hf] at h
        cases hc : constructExec σ node with
        | error e => simp only [hc] at h; exact Except.noConfusion h
        | ok p =>
          obtain ⟨i, σ1⟩ := p
          simp only [hc] at h
          cases hld : linkDeps (makeExecutor fuel g) node i σ1 with
          | error err =>
            simp only [hld, finishFrame] at h
            exact Except.noConfusion h
          | ok σ2 =>
            simp only [hld, finishFrame] at h
            have h2 := Except.ok.inj h
            injection h2 with hA hB
            subst hB
            subst hA
            obtain ⟨hi, hv1, ⟨nm, hcn, ha1⟩, he1⟩ := constructExec_ok hc
            obtain ⟨sl, sg, sn, sv, ss, sr, so⟩ := linkDeps_step ih hld
            have len1 : σ1.arena.length = σ.arena.length + 1 := by
              rw [ha1]; simp
            have hect1 : ∀ v, existVar σ.ectx v = true →
                existVar σ1.ectx v = true := by
              intro v hv
              rw [he1]
              by_cases hex : existVar σ.ectx node.outputVar
              · rw [if_pos hex]; exact hv
              · rw [if_neg hex]; exact existVar_initVar_mono _ _ _ hv
            have hectSelf : existVar σ1.ectx node.outputVar = true := by
              rw [he1]
              by_cases hex : existVar σ.ectx node.outputVar
              · rw [if_pos hex]; exact hex
              · rw [if_neg hex]; exact existVar_initVar_self _ _
            refine ⟨?_, ?_, ?_, ?_, ?_, ?_⟩
            · exact le_trans (by omega) sl
            · intro j hj hj2
              have hj1 : j < σ1.arena.length := by omega
              have hgj := sg j hj1 hj2 (by omega)
              rw [hgj, get_congr_list ha1 j hj1 (by rw [← ha1]; exact hj1),
                get_append_left _ _ j hj]
            · intro id j hh
              have hh1 : lookupV σ1.visited id = some j := by
                rw [hv1]; exact hh
              exact lookupV_insertV_mono (sv _ _ hh1)
            · intro v hv
              exact ss _ (hect1 _ hv)
            · intro hr
              have hr1 : refsOK σ1 := by
                intro id j hj
                rw [hv1] at hj
                have := hr id j hj
                omega
              have hr2 := sr hr1
              have hilt : i < σ2.arena.length := by
                have := sl
                omega
              constructor
              · intro id j hj
                rcases lookupV_insertV σ2.visited nid i id with hcase | hcase
                · rw [hcase] at hj
                  exact hr2 id j hj
                · rw [hcase.2.2] at hj
                  have : j = i := by injection hj; omega
                  subst this
                  exact hilt
              · exact hilt
            · intro ho
              have ho1 : outOK σ1 := by
                intro e he
                rw [ha1] at he
                rcases List.mem_append.1 he with hm | hm
                · exact hect1 _ (ho e hm)
                · rcases List.mem_singleton.1 hm with rfl
                  exact hectSelf
              exact so ho1

theorem get_append_last (l : List Exec) (e : Exec)
    (h : l.length < (l ++ [e]).length) :
    (l ++ [e]).get ⟨l.length, h⟩ = e := by
  induction l with
  | nil => rfl
  | cons a rest ih => exact ih _

theorem mem_children_dep {node : PlanNode} {d : Int} (h : d ∈ node.deps) :
    d ∈ nodeChildren node :=
  List.mem_append.2 (Or.inl h)

theorem mem_children_then {node : PlanNode} {t : Int}
    (h : node.thenId = some t) : t ∈ nodeChildren node := by
  simp [nodeChildren, h]

theorem mem_children_else {node : PlanNode} {t : Int}
    (h : node.elseId = some t) : t ∈ nodeChildren node := by
  simp [nodeChildren, h]

theorem mem_children_body {node : PlanNode} {t : Int}
    (h : node.bodyId = some t) : t ∈ nodeChildren node := by
  simp [nodeChildren, h]

theorem updExec_main (σ : BuildState) (i : Nat) (f : Exec → Exec)
    (hf : FPres f) :
    (ptrOK σ → ptrOK (updExec σ i f)) ∧
    (∀ A, cntOK σ A → cntOK (updExec σ i f) A) := by
  constructor
  · intro hp id j hj
    obtain ⟨hlt, hid⟩ := hp id j hj
    have hlt2 : j < (updExec σ i f).arena.length := by
      show j < (listUpd σ.arena i f).length
      rw [listUpd_length]; exact hlt
    refine ⟨hlt2, ?_⟩
    show ((listUpd σ.arena i f).get ⟨j, hlt2⟩).nodeId = id
    rw [listUpd_get_nodeId _ _ _ hf _ hlt hlt2]
    exact hid
  · intro A hc id
    have := countId_listUpd σ.arena i f (fun e => (hf e).1) id
    calc countId (updExec σ i f).arena id = countId σ.arena id := this
      _ = _ := hc id

theorem setThenBody_main (σ : BuildState) (i t : Nat) :
    (ptrOK σ → ptrOK (setThenBody σ i t)) ∧
    (∀ A, cntOK σ A → cntOK (setThenBody σ i t) A) :=
  updExec_main σ i _ fun _ => ⟨rfl, rfl⟩

theorem setElseBody_main (σ : BuildState) (i t : Nat) :
    (ptrOK σ → ptrOK (setElseBody σ i t)) ∧
    (∀ A, cntOK σ A → cntOK (setElseBody σ i t) A) :=
  updExec_main σ i _ fun _ => ⟨rfl, rfl⟩

theorem setLoopBody_main (σ : BuildState) (i t : Nat) :
    (ptrOK σ → ptrOK (setLoopBody σ i t)) ∧
    (∀ A, cntOK σ A → cntOK (setLoopBody σ i t) A) :=
  updExec_main σ i _ fun _ => ⟨rfl, rfl⟩

theorem dependsOn_main (σ : BuildState) (i d : Nat) :
    (ptrOK σ → ptrOK (dependsOn σ i d)) ∧
    (∀ A, cntOK σ A → cntOK (dependsOn σ i d) A) :=
  updExec_main σ i _ fun _ => ⟨rfl, rfl⟩

theorem buildCtl_main {g : Graph} {rank : Int → Nat}
    {mk : Int → BuildState → Except BuildErr (Nat × BuildState)}
    (hg : Ranked g rank) (hmk : MkMain rank mk) {node : PlanNode}
    {i : Nat} {σ1 σa : BuildState} {A : List Int} (hmem : node ∈ g)
    (hAle : ∀ a ∈ A, rank node.id ≤ rank a)
    (hp : ptrOK σ1) (hcnt : cntOK σ1 A)
    (h : buildCtl mk node i σ1 = .ok σa) :
    ptrOK σa ∧ cntOK σa A ∧
    (∀ id, (lookupV σa.visited id).isSome →
      (lookupV σ1.visited id).isSome ∨ rank id < rank node.id) := by
  unfold buildCtl at h
  by_cases hsel : node.kind = Kind.kSelect
  · rw [if_pos hsel] at h
    cases ht : node.thenId with
    | none => simp only [ht] at h; exact Except.noConfusion h
    | some t =>
      cases he : node.elseId with
      | none => simp only [ht, he] at h; exact Except.noConfusion h
      | some e =>
        simp only [ht, he] at h
        cases hmt : mk t σ1 with
        | error err => simp only [hmt] at h; exact Except.noConfusion h
        | ok p =>
          obtain ⟨ti, σt⟩ := p
          simp only [hmt] at h
          have hct : rank t < rank node.id :=
            hg node hmem t (mem_children_then ht)
          obtain ⟨pt, ct, lt_, nt⟩ :=
            hmk t σ1 A ti σt hp hcnt
              (fun a ha => lt_of_lt_of_le hct (hAle a ha)) hmt
          cases hme : mk e σt with
          | error err => simp only [hme] at h; exact Except.noConfusion h
          | ok q =>
            obtain ⟨ei, σe⟩ := q
            simp only [hme] at h
            have hce : rank e < rank node.id :=
              hg node hmem e (mem_children_else he)
            obtain ⟨pe, ce, le_, ne_⟩ :=
              hmk e σt A ei σe pt ct
                (fun a ha => lt_of_lt_of_le hce (hAle a ha)) hme
            have h2 := Except.ok.inj h
            rw [← h2]
            refine ⟨?_, ?_, ?_⟩
            · exact (setElseBody_main _ _ _).1 ((setThenBody_main _ _ _).1 pe)
            · exact (setElseBody_main _ _ _).2 _
                ((setThenBody_main _ _ _).2 _ ce)
            · intro id hid
              rcases ne_ id hid with hy | hy
              · rcases nt id hy with hz | hz
                · exact Or.inl hz
                · exact Or.inr (lt_of_le_of_lt hz hct)
              · exact Or.inr (lt_of_le_of_lt hy hce)
  · rw [if_neg hsel] at h
    by_cases hloop : node.kind = Kind.kLoop
    · rw [if_pos hloop] at h
      cases hb : node.bodyId with
      | none => simp only [hb] at h; exact Except.noConfusion h
      | some b =>
        simp only [hb] at h
        cases hmb : mk b σ1 with
        | error err => simp only [hmb] at h; exact Except.noConfusion h
        | ok p =>
          obtain ⟨bi, σb⟩ := p
          simp only [hmb] at h
          have hcb : rank b < rank node.id :=
            hg node hmem b (mem_children_body hb)
          obtain ⟨pb, cb, lb, nb⟩ :=
            hmk b σ1 A bi σb hp hcnt
              (fun a ha => lt_of_lt_of_le hcb (hAle a ha)) hmb
          have h2 := Except.ok.inj h
          rw [← h2]
          refine ⟨(setLoopBody_main _ _ _).1 pb,
            (setLoopBody_main _ _ _).2 _ cb, ?_⟩
          intro id hid
          rcases nb id hid with hy | hy
          · exact Or.inl hy
          · exact Or.inr (lt_of_le_of_lt hy hcb)
    · rw [if_neg hloop] at h
      have h2 := Except.ok.inj h
      rw [← h2]
      exact ⟨hp, hcnt, fun id hid => Or.inl hid⟩

theorem linkDeps_main {g : Graph} {rank : Int → Nat}
    {mk : Int → BuildState → Except BuildErr (Nat × BuildState)}
    (hg : Ranked g rank) (hmk : MkMain rank mk) {node : PlanNode}
    {i : Nat} {σ1 σ2 : BuildState} {A : List Int} (hmem : node ∈ g)
    (hAle : ∀ a ∈ A, rank node.id ≤ rank a)
    (hp : ptrOK σ1) (hcnt : cntOK σ1 A)
    (h : linkDeps mk node i σ1 = .ok σ2) :
    ptrOK σ2 ∧ cntOK σ2 A ∧
    (∀ id, (lookupV σ2.visited id).isSome →
      (lookupV σ1.visited id).isSome ∨ rank id < rank node.id) := by
  unfold linkDeps at h
  cases hd : node.deps with
  | nil =>
    simp only [hd] at h
    have h2 := Except.ok.inj h
    rw [← h2]
    exact ⟨hp, hcnt, fun id hid => Or.inl hid⟩
  | cons d0 rest =>
    cases hr : rest with
    | nil =>
      simp only [hd, hr] at h
      cases hctl : buildCtl mk node i σ1 with
      | error err => simp only [hctl] at h; exact Except.noConfusion h
      | ok σa =>
        simp only [hctl] at h
        obtain ⟨pa, ca, na⟩ := buildCtl_main hg hmk hmem hAle hp hcnt hctl
        cases hmd : mk d0 σa with
        | error err => simp only [hmd] at h; exact Except.noConfusion h
        | ok p =>
          obtain ⟨di, σd⟩ := p
          simp only [hmd] at h
          have hd0 : d0 ∈ node.deps := by
            rw [hd]; exact List.mem_cons_self _ _
          have hcd : rank d0 < rank node.id :=
            hg node hmem d0 (mem_children_dep hd0)
          obtain ⟨pd, cd, ld, nd⟩ :=
            hmk d0 σa A di σd pa ca
              (fun a ha => lt_of_lt_of_le hcd (hAle a ha)) hmd
          have h2 := Except.ok.inj h
          rw [← h2]
          refine ⟨(dependsOn_main _ _ _).1 pd,
            (dependsOn_main _ _ _).2 _ cd, ?_⟩
          intro id hid
          rcases nd id hid with hy | hy
          · rcases na id hy with hz | hz
            · exact Or.inl hz
            · exact Or.inr hz
          · exact Or.inr (lt_of_le_of_lt hy hcd)
    | cons d1 rest2 =>
      cases hr2 : rest2 with
      | nil =>
        simp only [hd, hr, hr2] at h
        cases hml : mk d0 σ1 with
        | error err => simp only [hml] at h; exact Except.noConfusion h
        | ok p =>
          obtain ⟨li, σl⟩ := p
          simp only [hml] at h
          have hd0 : d0 ∈ node.deps := by
            rw [hd]; exact List.mem_cons_self _ _
          have hcd0 : rank d0 < rank node.id :=
            hg node hmem d0 (mem_children_dep hd0)
          obtain ⟨pl, cl, ll, nl⟩ :=
            hmk d0 σ1 A li σl hp hcnt
              (fun a ha => lt_of_lt_of_le hcd0 (hAle a ha)) hml
          cases hmr : mk d1 σl with
          | error err => simp only [hmr] at h; exact Except.noConfusion h
          | ok q =>
            obtain ⟨ri, σr⟩ := q
            simp only [hmr] at h
            have hd1 : d1 ∈ node.deps := by
              rw [hd, hr]
              exact List.mem_cons_of_mem _ (List.mem_cons_self _ _)
            have hcd1 : rank d1 < rank node.id :=
              hg node hmem d1 (mem_children_dep hd1)
            obtain ⟨pr, cr, lr, nr⟩ :=
              hmk d1 σl A ri σr pl cl
                (fun a ha => lt_of_lt_of_le hcd1 (hAle a ha)) hmr
            have h2 := Except.ok.inj h
            rw [← h2]
            refine ⟨?_, ?_, ?_⟩
            · exact (dependsOn_main _ _ _).1 ((dependsOn_main _ _ _).1 pr)
            · exact (dependsOn_main _ _ _).2 _
                ((dependsOn_main _ _ _).2 _ cr)
            · intro id hid
              rcases nr id hid with hy | hy
              · rcases nl id hy with hz | hz
                · exact Or.inl hz
                · exact Or.inr (lt_of_le_of_lt hz hcd0)
              · exact Or.inr (lt_of_le_of_lt hy hcd1)
      | cons d2 rest3 =>
        simp only [hd, hr, hr2] at h
        exact Except.noConfusion h

/-- Every successful run of the builder on a ranked (acyclic) plan graph
preserves the pointer and counting invariants, memoizes the requested node at
the returned index, and only adds memoization keys of rank at most the
requested node's rank. -/
theorem buildMain (g : Graph) (rank : Int → Nat) (hg : Ranked g rank)
    (fuel : Nat) : MkMain rank (makeExecutor fuel g) := by
  induction fuel with
  | zero => intro c σ A r σ' _ _ _ h; exact Except.noConfusion h
  | succ fuel ih =>
    intro nid σ A r σ' hp hcnt hA h
    rw [makeExecutor] at h
    cases hl : lookupV σ.visited nid with
    | some i =>
      simp only [hl] at h
      have h2 := Except.ok.inj h
      injection h2 with hA2 hB2
      subst hB2
      subst hA2
      exact ⟨hp, hcnt, hl, fun id hid => Or.inl hid⟩
    | none =>
      simp only [hl] at h
      cases hf : findNode g nid with
      | none => simp only [hf] at h; exact Except.noConfusion h
      | some node =>
        simp only [hf] at h
        obtain ⟨hmem, hnid⟩ := findNode_mem hf
        subst hnid
        cases hc : constructExec σ node with
        | error e => simp only [hc] at h; exact Except.noConfusion h
        | ok p =>
          obtain ⟨i, σ1⟩ := p
          simp only [hc] at h
          cases hld : linkDeps (makeExecutor fuel g) node i σ1 with
          | error err =>
            simp only [hld, finishFrame] at h
            exact Except.noConfusion h
          | ok σ2 =>
            simp only [hld, finishFrame] at h
            have h2 := Except.ok.inj h
            injection h2 with hA2 hB2
            subst hB2
            subst hA2
            obtain ⟨hi, hv1, ⟨nm, hcn, ha1⟩, he1⟩ := constructExec_ok hc
            obtain ⟨sl, sg, sn, sv, ss, sr, so⟩ :=
              linkDeps_step (buildBasic fuel g) hld
            have len1 : σ1.arena.length = σ.arena.length + 1 := by
              rw [ha1]; simp
            have hp1 : ptrOK σ1 := by
              intro id j hj
              rw [hv1] at hj
              obtain ⟨hlt, hid⟩ := hp id j hj
              have hlt1 : j < σ1.arena.length := by omega
              refine ⟨hlt1, ?_⟩
              rw [get_congr_list ha1 j hlt1 (by rw [← ha1]; exact hlt1),
                get_append_left _ _ j hlt]
              exact hid
            have hc1 : cntOK σ1 (node.id :: A) := by
              intro id
              have hbase := hcnt id
              show countId σ1.arena id = _
              rw [ha1, countId_append, hv1]
              by_cases hidn : id = node.id
              · subst hidn
                have e2 : countId
                    [{ nodeId := node.id, className := nm,
                       outputVar := node.outputVar, depends := [],
                       thenBody := none, elseBody := none,
                       loopBody := none }] node.id = 1 := by
                  simp [countId]
                have e3 : (if (none : Option Nat).isSome = true
                    then (1 : Nat) else 0) = 0 := rfl
                rw [e2, countL_cons_self, hl, e3]
                rw [hl, e3] at hbase
                omega
              · rw [countL_cons_ne A hidn]
                have hz : countId
                    [{ nodeId := node.id, className := nm,
                       outputVar := node.outputVar, depends := [],
                       thenBody := none, elseBody := none,
                       loopBody := none }] id = 0 := by
                  simp only [countId]
                  rw [if_neg fun hq => hidn hq.symm]
                rw [hz, hbase]
                omega
            have hAle : ∀ a ∈ node.id :: A, rank node.id ≤ rank a := by
              intro a ha2
              rcases List.mem_cons.1 ha2 with rfl | ha3
              · exact le_refl _
              · exact le_of_lt (hA a ha3)
            obtain ⟨p2, c2, n2⟩ := linkDeps_main hg ih hmem hAle hp1 hc1 hld
            have hnone2 : lookupV σ2.visited node.id = none := by
              cases hq : lookupV σ2.visited node.id with
              | none => rfl
              | some w =>
                have hq2 : (lookupV σ2.visited node.id).isSome := by
                  rw [hq]; rfl
                rcases n2 node.id hq2 with hy | hy
                · rw [hv1, hl] at hy
                  exact absurd hy (by simp)
                · exact absurd hy (lt_irrefl _)
            have hilt1 : i < σ1.arena.length := by omega
            have hilt2 : i < σ2.arena.length := lt_of_lt_of_le hilt1 sl
            have hnodeAt : (σ2.arena.get ⟨i, hilt2⟩).nodeId = node.id := by
              rw [sn i hilt1 hilt2,
                get_congr_list ha1 i hilt1 (by rw [← ha1]; exact hilt1)]
              subst hi
              rw [get_append_last]
            refine ⟨?_, ?_, ?_, ?_⟩
            · intro id j hj
              have hj2 : lookupV (insertV σ2.visited node.id i) id = some j :=
                hj
              rcases lookupV_insertV σ2.visited node.id i id with hcase | hcase
              · rw [hcase] at hj2
                obtain ⟨hlt, hid⟩ := p2 id j hj2
                exact ⟨hlt, hid⟩
              · obtain ⟨hEq, _, heq⟩ := hcase
                rw [heq] at hj2
                have hji : j = i := by
                  injection hj2 with hq
                  omega
                subst hji
                subst hEq
                exact ⟨hilt2, hnodeAt⟩
            · intro id
              have hc2 := c2 id
              show countId σ2.arena id = _
              by_cases hidn : id = node.id
              · subst hidn
                have e3 : (if (none : Option Nat).isSome = true
                    then (1 : Nat) else 0) = 0 := rfl
                have e4 : (if (some i).isSome = true
                    then (1 : Nat) else 0) = 1 := rfl
                rw [lookupV_insertV_self hnone2, e4]
                rw [hnone2, countL_cons_self, e3] at hc2
                omega
              · rw [lookupV_insertV_ne hidn]
                rw [countL_cons_ne A hidn] at hc2
                exact hc2
            · exact lookupV_insertV_self hnone2
            · intro id hid
              have hid2 : (lookupV (insertV σ2.visited node.id i) id).isSome :=
                hid
              rcases lookupV_insertV σ2.visited node.id i id with hcase | hcase
              · rw [hcase] at hid2
                rcases n2 id hid2 with hy | hy
                · rw [hv1] at hy
                  exact Or.inl hy
                · exact Or.inr (le_of_lt hy)
              · obtain ⟨rfl, -, -⟩ := hcase
                exact Or.inr (le_refl _)

theorem getVar_setVar_self (ctx : EContext) (n : String) (r : Result) :
    getVar (setVar ctx n r) n = some (some r) := by
  induction ctx with
  | nil => simp [setVar, getVar]
  | cons p rest ih =>
    obtain ⟨k, v⟩ := p
    by_cases hk : k = n
    · simp [setVar, getVar, hk]
    · simp only [setVar, getVar, if_neg hk]
      exact ih

/-! Claim theorems. -/

/-- Claim C4: after finish(result), a subsequent close() publishes to the
profiling sink, keyed by the executor's node identity, a statistics record
whose row count equals the size of the result, together with the total
wall-clock duration and the internal exec duration, and close() returns a
success status. -/
theorem close_reports_finished_rows (s : RTState) (r : Result) (now : Nat) :
    (Executor.close now (Executor.finish r s).2).1 = Status.ok ∧
    (Executor.close now (Executor.finish r s).2).2.profile =
      s.profile ++ [(s.nodeId,
        { totalDurationInUs := now - s.timerStart, rows := r.size,
          execDurationInUs := s.execTime })] := by
  constructor <;> rfl

/-- Claim C5: finish(result) stores the result in the Execution Context under
the executor's output-variable name (overwriting any prior value of that
slot), sets the row counter to the result's size, and returns a success
status. -/
theorem finish_stores_result (s : RTState) (r : Result) :
    Executor.finish r s =
      (Status.ok,
       { s with numRows := r.size, ectx := setVar s.ectx s.outputVar r }) ∧
    getVar (setVar s.ectx s.outputVar r) s.outputVar = some (some r) := by
  exact ⟨rfl, getVar_setVar_self s.ectx s.outputVar r⟩

/-- Claim C6: open() sets the row counter and the exec-duration counter to 0,
restarts the wall-clock timer, and returns a success status, from any prior
counter state; opening the same instance again re-establishes exactly this
post-state, and open() never returns a failure. -/
theorem open_resets_counters (s : RTState) (now now2 : Nat) :
    Executor.openExec now s =
      (Status.ok, { s with numRows := 0, execTime := 0, timerStart := now }) ∧
    Executor.openExec now2 (Executor.openExec now s).2 =
      (Status.ok, { s with numRows := 0, execTime := 0, timerStart := now2 }) := by
  constructor <;> rfl

/-- Claim C9: Executor::error returns an already-resolved asynchronous result
carrying the status wrapped as an execution error (never a plain status
value), scheduled via the task runner; symmetrically Executor::start returns
an already-resolved asynchronous result carrying the plain status unwrapped.
Neither combinator involves any execute call. -/
theorem error_wraps_status (s : Status) :
    Executor.error s =
      { resolved := true, val := FutureVal.exception { status := s },
        viaRunner := true } ∧
    Executor.start s =
      { resolved := true, val := FutureVal.value s, viaRunner := true } ∧
    (∀ s2, (Executor.error s).val ≠ FutureVal.value s2) :=
  ⟨rfl, rfl, fun _ h => FutureVal.noConfusion h⟩

/-- Claim C10: the finish(Value) overload wraps the value in a Result whose
iteration descriptor is the default sequential kind and behaves identically
to finish(Result) on that wrapped Result. -/
theorem finish_value_default_iter (v : Value) (s : RTState) :
    Executor.finishValue v s =
      Executor.finish { value := v, iterKind := IterKind.kDefault } s ∧
    (Executor.finishValue v s).2.ectx =
      setVar s.ectx s.outputVar { value := v, iterKind := IterKind.kDefault } ∧
    (resultBuild v IterKind.kDefault).iterKind = IterKind.kDefault :=
  ⟨rfl, rfl, rfl⟩

/-- Claim C1: one call to Executor::create on a plan DAG (acyclicity
witnessed by a rank function) builds exactly one Executor instance per
distinct plan-node identity: the arena holds exactly one executor for every
memoized node id and none for any other id, every memoization-map entry
points to the arena executor of the same node identity (so every lookup of a
shared node yields that one instance), and the root is memoized at the
returned executor. -/
theorem one_executor_per_plan_node (g : Graph) (rank : Int → Nat)
    (hg : Ranked g rank) (fuel : Nat) (root : Int) (ectx0 : EContext)
    (r : Nat) (σfin : BuildState)
    (h : Executor.create fuel g root ectx0 = .ok (r, σfin)) :
    (∀ id, countId σfin.arena id =
      if (lookupV σfin.visited id).isSome then 1 else 0) ∧
    ptrOK σfin ∧ lookupV σfin.visited root = some r := by
  have h0p : ptrOK (initState ectx0) := by
    intro id j hj
    exact Option.noConfusion hj
  have h0c : cntOK (initState ectx0) [] := by
    intro id
    rfl
  obtain ⟨p, c, l, n⟩ :=
    buildMain g rank hg fuel root (initState ectx0) [] r σfin h0p h0c
      (fun a ha => absurd ha (List.not_mem_nil a)) h
  refine ⟨?_, p, l⟩
  intro id
  have hc := c id
  rw [show countL [] id = 0 from rfl, Nat.add_zero] at hc
  exact hc

/-- Witness for C1: the diamond-shaped graph gDiamond, in which node 0 is
reachable from both node 1 and node 2, builds successfully and its final
state carries exactly one executor for the shared node 0. -/
theorem one_executor_per_plan_node_witness :
    ∃ r σfin, Executor.create 10 gDiamond 3 [] = Except.ok (r, σfin) ∧
      (∀ id, countId σfin.arena id =
        if (lookupV σfin.visited id).isSome then 1 else 0) ∧
      ptrOK σfin ∧ lookupV σfin.visited 3 = some r ∧
      countId σfin.arena 0 = 1 := by
  cases hcr : Executor.create 10 gDiamond 3 [] with
  | error e =>
    exfalso
    have hok : isOkE (Executor.create 10 gDiamond 3 []) = true := by decide
    rw [hcr] at hok
    simp [isOkE] at hok
  | ok p =>
    obtain ⟨r, σfin⟩ := p
    obtain ⟨h1, h2, h3⟩ :=
      one_executor_per_plan_node gDiamond Int.toNat (by decide) 10 3 [] r
        σfin hcr
    refine ⟨r, σfin, rfl, h1, h2, h3, ?_⟩
    rw [h1 0]
    have h0 : visitedHas (Executor.create 10 gDiamond 3 []) 0 = true := by
      decide
    rw [hcr] at h0
    simp only [visitedHas] at h0
    rw [h0]
    rfl

/-- Claim C8: after the build, every executor in the arena has a declared
slot for its node's output-variable name in the Execution Context (the
Executor constructor declares it on construction), and the build phase never
removes a slot: every slot of the initial context still exists afterwards. -/
theorem output_slots_declared (fuel : Nat) (g : Graph) (root : Int)
    (ectx0 : EContext) (r : Nat) (σfin : BuildState)
    (h : Executor.create fuel g root ectx0 = .ok (r, σfin)) :
    (∀ e ∈ σfin.arena, existVar σfin.ectx e.outputVar = true) ∧
    (∀ v, existVar ectx0 v = true → existVar σfin.ectx v = true) := by
  obtain ⟨-, -, -, hs, -, ho⟩ :=
    buildBasic fuel g root (initState ectx0) r σfin h
  exact ⟨ho fun e he => absurd he (List.not_mem_nil e), hs⟩

/-- Witness for C8: building the diamond graph declares the output slots of
all four executors, and a pre-existing slot survives the build. -/
theorem output_slots_declared_witness :
    ∃ r σfin,
      Executor.create 10 gDiamond 3 [("pre", none)] = Except.ok (r, σfin) ∧
      (∀ e ∈ σfin.arena, existVar σfin.ectx e.outputVar = true) ∧
      (∀ v, existVar [("pre", none)] v = true →
        existVar σfin.ectx v = true) := by
  cases hcr : Executor.create 10 gDiamond 3 [("pre", none)] with
  | error e =>
    exfalso
    have hok : isOkE (Executor.create 10 gDiamond 3 [("pre", none)]) = true := by
      decide
    rw [hcr] at hok
    simp [isOkE] at hok
  | ok p =>
    obtain ⟨r, σfin⟩ := p
    obtain ⟨h1, h2⟩ :=
      output_slots_declared 10 gDiamond 3 [("pre", none)] r σfin hcr
    exact ⟨r, σfin, rfl, h1, h2⟩

/-- Counterexample to C2 as stated: in the two-node chain gChain, when the
frame for node 1 issues its recursive dependency call, the memoization map
passed to that call is still empty — node 1 has not been inserted before the
recursion. -/
theorem insert_before_recursion_refuted :
    ¬ (∀ m, visitedAtDepCall gChain 1 (initState []) = some m →
        (lookupV m 1).isSome = true) := by
  intro hcl
  have hx := hcl [] rfl
  exact absurd hx (by decide)

/-- Amended C2: the newly constructed executor is inserted into the
memoization map only after the recursive calls return, not before — the map
passed to the frame's recursive calls is exactly the incoming map, in which
the node is still absent; on a ranked (acyclic) graph the insertion has
happened by the time the frame returns, so the returned executor is memoized
for the node. -/
theorem memo_insert_after_recursion :
    (∀ (g : Graph) (nid : Int) (σ : BuildState) m,
       visitedAtDepCall g nid σ = some m →
       m = σ.visited ∧ lookupV σ.visited nid = none) ∧
    (∀ (g : Graph) (rank : Int → Nat), Ranked g rank →
       ∀ fuel root ectx0 r σfin,
       Executor.create fuel g root ectx0 = .ok (r, σfin) →
       lookupV σfin.visited root = some r) := by
  constructor
  · intro g nid σ m h
    unfold visitedAtDepCall at h
    cases hl : lookupV σ.visited nid with
    | some i => simp only [hl] at h; exact Option.noConfusion h
    | none =>
      simp only [hl] at h
      cases hf : findNode g nid with
      | none => simp only [hf] at h; exact Option.noConfusion h
      | some node =>
        simp only [hf] at h
        cases hc : constructExec σ node with
        | error e => simp only [hc] at h; exact Option.noConfusion h
        | ok p =>
          obtain ⟨i, σ1⟩ := p
          simp only [hc] at h
          by_cases hdl : node.deps.length = 1 ∨ node.deps.length = 2
          · rw [if_pos hdl] at h
            have hm := Option.some.inj h
            obtain ⟨-, hv1, -, -⟩ := constructExec_ok hc
            refine ⟨?_, rfl⟩
            rw [← hm]
            exact hv1
          · rw [if_neg hdl] at h
            exact Option.noConfusion h
  · intro g rank hg fuel root ectx0 r σfin h
    have h0p : ptrOK (initState ectx0) := by
      intro id j hj
      exact Option.noConfusion hj
    have h0c : cntOK (initState ectx0) [] := by
      intro id
      rfl
    obtain ⟨-, -, l, -⟩ :=
      buildMain g rank hg fuel root (initState ectx0) [] r σfin h0p h0c
        (fun a ha => absurd ha (List.not_mem_nil a)) h
    exact l

/-- Witness for the amended C2 on the chain graph: the map seen by the
dependency call of node 1's frame is the untouched empty incoming map, and
after the build node 1 is memoized at the returned executor. -/
theorem memo_insert_after_recursion_witness :
    (([] : List (Int × Nat)) = (initState []).visited ∧
      lookupV (initState ([] : EContext)).visited 1 = none) ∧
    ∃ r σfin, Executor.create 5 gChain 1 [] = Except.ok (r, σfin) ∧
      lookupV σfin.visited 1 = some r := by
  constructor
  · exact memo_insert_after_recursion.1 gChain 1 (initState []) [] rfl
  · cases hcr : Executor.create 5 gChain 1 [] with
    | error e =>
      exfalso
      have hok : isOkE (Executor.create 5 gChain 1 []) = true := by decide
      rw [hcr] at hok
      simp [isOkE] at hok
    | ok p =>
      obtain ⟨r, σfin⟩ := p
      exact ⟨r, σfin, rfl,
        memo_insert_after_recursion.2 gChain Int.toNat (by decide) 5 1 [] r
          σfin hcr⟩

theorem buildCtl_err {mk : Int → BuildState → Except BuildErr (Nat × BuildState)}
    {node : PlanNode} {i : Nat} {σ1 : BuildState} {err : BuildErr}
    (hmk : ∀ c σ err2, mk c σ = .error err2 →
      err2 = .outOfFuel ∨ err2 = .badGraph)
    (h : buildCtl mk node i σ1 = .error err) :
    err = .outOfFuel ∨ err = .badGraph := by
  unfold buildCtl at h
  by_cases hsel : node.kind = Kind.kSelect
  · rw [if_pos hsel] at h
    cases ht : node.thenId with
    | none =>
      simp only [ht] at h
      exact Or.inr (Except.error.inj h).symm
    | some t =>
      cases he : node.elseId with
      | none =>
        simp only [ht, he] at h
        exact Or.inr (Except.error.inj h).symm
      | some e =>
        simp only [ht, he] at h
        cases hmt : mk t σ1 with
        | error err2 =>
          simp only [hmt] at h
          rw [← Except.error.inj h]
          exact hmk _ _ _ hmt
        | ok p =>
          obtain ⟨ti, σt⟩ := p
          simp only [hmt] at h
          cases hme : mk e σt with
          | error err2 =>
            simp only [hme] at h
            rw [← Except.error.inj h]
            exact hmk _ _ _ hme
          | ok q =>
            obtain ⟨ei, σe⟩ := q
            simp only [hme] at h
            exact Except.noConfusion h
  · rw [if_neg hsel] at h
    by_cases hloop : node.kind = Kind.kLoop
    · rw [if_pos hloop] at h
      cases hb : node.bodyId with
      | none =>
        simp only [hb] at h
        exact Or.inr (Except.error.inj h).symm
      | some b =>
        simp only [hb] at h
        cases hmb : mk b σ1 with
        | error err2 =>
          simp only [hmb] at h
          rw [← Except.error.inj h]
          exact hmk _ _ _ hmb
        | ok p =>
          obtain ⟨bi, σb⟩ := p
          simp only [hmb] at h
          exact Except.noConfusion h
    · rw [if_neg hloop] at h
      exact Except.noConfusion h

theorem linkDeps_err {mk : Int → BuildState → Except BuildErr (Nat × BuildState)}
    {node : PlanNode} {i : Nat} {σ1 : BuildState} {err : BuildErr}
    (hlen : node.deps.length ≤ 2)
    (hmk : ∀ c σ err2, mk c σ = .error err2 →
      err2 = .outOfFuel ∨ err2 = .badGraph)
    (h : linkDeps mk node i σ1 = .error err) :
    err = .outOfFuel ∨ err = .badGraph := by
  unfold linkDeps at h
  cases hd : node.deps with
  | nil =>
    simp only [hd] at h
    exact Except.noConfusion h
  | cons d0 rest =>
    cases hr : rest with
    | nil =>
      simp only [hd, hr] at h
      cases hctl : buildCtl mk node i σ1 with
      | error err2 =>
        simp only [hctl] at h
        rw [← Except.error.inj h]
        exact buildCtl_err hmk hctl
      | ok σa =>
        simp only [hctl] at h
        cases hmd : mk d0 σa with
        | error err2 =>
          simp only [hmd] at h
          rw [← Except.error.inj h]
          exact hmk _ _ _ hmd
        | ok p =>
          obtain ⟨di, σd⟩ := p
          simp only [hmd] at h
          exact Except.noConfusion h
    | cons d1 rest2 =>
      cases hr2 : rest2 with
      | nil =>
        simp only [hd, hr, hr2] at h
        cases hml : mk d0 σ1 with
        | error err2 =>
          simp only [hml] at h
          rw [← Except.error.inj h]
          exact hmk _ _ _ hml
        | ok p =>
          obtain ⟨li, σl⟩ := p
          simp only [hml] at h
          cases hmr : mk d1 σl with
          | error err2 =>
            simp only [hmr] at h
            rw [← Except.error.inj h]
            exact hmk _ _ _ hmr
          | ok q =>
            obtain ⟨ri, σr⟩ := q
            simp only [hmr] at h
            exact Except.noConfusion h
      | cons d2 rest3 =>
        exfalso
        rw [hd, hr, hr2] at hlen
        simp at hlen

/-- Claim C3: a not-yet-memoized node of unmapped kind makes the build abort
fatally (the process-terminating branch at Executor.cpp line 342, before the
frame returns any executor or links any edge); a not-yet-memoized node of
mapped kind whose dependency arity is outside 0, 1, 2 makes the build abort
fatally through the switch default (lines 122-125), again before any edge is
linked; and on a graph all of whose nodes have mapped kinds and arity at most
2, neither fatal branch is ever reached — any build error is a fuel or
dangling-reference artifact of the embedding. -/
theorem fatal_on_invalid_arity_or_kind :
    (∀ (fuel : Nat) (g : Graph) (nid : Int) (σ : BuildState) node,
       lookupV σ.visited nid = none → findNode g nid = some node →
       executorClassName node.kind = none →
       makeExecutor (fuel + 1) g nid σ = .error .fatalUnknownKind) ∧
    (∀ (fuel : Nat) (g : Graph) (nid : Int) (σ : BuildState) node nm,
       lookupV σ.visited nid = none → findNode g nid = some node →
       executorClassName node.kind = some nm →
       3 ≤ node.deps.length →
       makeExecutor (fuel + 1) g nid σ =
         .error (.fatalArity node.deps.length)) ∧
    (∀ (g : Graph),
       (∀ n ∈ g, (executorClassName n.kind).isSome ∧ n.deps.length ≤ 2) →
       ∀ fuel nid σ err, makeExecutor fuel g nid σ = .error err →
       err = .outOfFuel ∨ err = .badGraph) := by
  refine ⟨?_, ?_, ?_⟩
  · intro fuel g nid σ node hl hf hcn
    rw [makeExecutor]
    simp only [hl, hf]
    have hc : constructExec σ node = .error .fatalUnknownKind := by
      unfold constructExec
      rw [hcn]
    simp only [hc]
  · intro fuel g nid σ node nm hl hf hcn hlen
    rw [makeExecutor]
    simp only [hl, hf]
    cases hc : constructExec σ node with
    | error e =>
      exfalso
      unfold constructExec at hc
      rw [hcn] at hc
      exact Except.noConfusion hc
    | ok p =>
      obtain ⟨i, σ1⟩ := p
      simp only []
      have hld : linkDeps (makeExecutor fuel g) node i σ1 =
          .error (.fatalArity node.deps.length) := by
        unfold linkDeps
        cases hdd : node.deps with
        | nil => rw [hdd] at hlen; simp at hlen
        | cons d0 rest =>
          cases hrr : rest with
          | nil =>
            exfalso
            rw [hdd, hrr] at hlen
            simp at hlen
          | cons d1 rest2 =>
            cases hrr2 : rest2 with
            | nil =>
              exfalso
              rw [hdd, hrr, hrr2] at hlen
              simp at hlen
            | cons d2 rest3 => rfl
      rw [hld]
      rfl
  · intro g hgood fuel
    induction fuel with
    | zero =>
      intro nid σ err h
      exact Or.inl (Except.error.inj h).symm
    | succ fuel ih =>
      intro nid σ err h
      rw [makeExecutor] at h
      cases hl : lookupV σ.visited nid with
      | some i => simp only [hl] at h; exact Except.noConfusion h
      | none =>
        simp only [hl] at h
        cases hf : findNode g nid with
        | none =>
          simp only [hf] at h
          exact Or.inr (Except.error.inj h).symm
        | some node =>
          simp only [hf] at h
          obtain ⟨hmem, -⟩ := findNode_mem hf
          obtain ⟨hkind, hlen⟩ := hgood node hmem
          cases hc : constructExec σ node with
          | error e =>
            exfalso
            unfold constructExec at hc
            cases hcn : executorClassName node.kind with
            | none => rw [hcn] at hkind; simp at hkind
            | some nm => rw [hcn] at hc; exact Except.noConfusion hc
          | ok p =>
            obtain ⟨i, σ1⟩ := p
            simp only [hc] at h
            cases hld : linkDeps (makeExecutor fuel g) node i σ1 with
            | error err2 =>
              simp only [hld, finishFrame] at h
              rw [← Except.error.inj h]
              exact linkDeps_err hlen (fun c σ2 err3 hh => ih c σ2 err3 hh)
                hld
            | ok σ2 =>
              simp only [hld, finishFrame] at h
              exact Except.noConfusion h

/-- Witness for C3: in gBad, node 7 (unmapped kind) aborts with the unknown
kind fatal, node 8 (arity 3) aborts with the arity fatal; on the well-formed
diamond graph any build error is an embedding artifact, never a fatal. -/
theorem fatal_on_invalid_arity_or_kind_witness :
    makeExecutor 1 gBad 7 (initState []) =
      Except.error BuildErr.fatalUnknownKind ∧
    makeExecutor 1 gBad 8 (initState []) =
      Except.error (BuildErr.fatalArity 3) ∧
    (∀ err, makeExecutor 10 gDiamond 3 (initState []) = Except.error err →
      err = BuildErr.outOfFuel ∨ err = BuildErr.badGraph) := by
  refine ⟨?_, ?_, ?_⟩
  · exact fatal_on_invalid_arity_or_kind.1 0 gBad 7 (initState [])
      (nPlain 7 Kind.kUnknown [] "x") rfl rfl rfl
  · exact fatal_on_invalid_arity_or_kind.2.1 0 gBad 8 (initState [])
      (nPlain 8 Kind.kProject [1, 2, 3] "y") "ProjectExecutor" rfl rfl rfl
      (by decide)
  · intro err h
    exact fatal_on_invalid_arity_or_kind.2.2 gDiamond (by decide) 10 3
      (initState []) err h

/-- Claim C7: building a not-yet-memoized Select node (which has one
dependency) attaches both the then body and the otherwise body as non-null
executors of the built arena, independently of any runtime condition (the
build takes no condition input); likewise a Loop node gets its body sub-graph
built and attached at build time. -/
theorem branch_loop_bodies_built (fuel : Nat) (g : Graph) (nid : Int)
    (σ : BuildState) (node : PlanNode) (r : Nat) (σfin : BuildState)
    (href : refsOK σ)
    (hl : lookupV σ.visited nid = none)
    (hf : findNode g nid = some node)
    (hlen1 : node.deps.length = 1)
    (h : makeExecutor fuel g nid σ = .ok (r, σfin)) :
    (node.kind = Kind.kSelect →
      ∃ hr : r < σfin.arena.length, ∃ ti ei,
        (σfin.arena.get ⟨r, hr⟩).thenBody = some ti ∧
        (σfin.arena.get ⟨r, hr⟩).elseBody = some ei ∧
        ti < σfin.arena.length ∧ ei < σfin.arena.length) ∧
    (node.kind = Kind.kLoop →
      ∃ hr : r < σfin.arena.length, ∃ bi,
        (σfin.arena.get ⟨r, hr⟩).loopBody = some bi ∧
        bi < σfin.arena.length) := by
  cases fuel with
  | zero => exact Except.noConfusion h
  | succ fuel =>
    rw [makeExecutor] at h
    simp only [hl, hf] at h
    cases hc : constructExec σ node with
    | error e => simp only [hc] at h; exact Except.noConfusion h
    | ok p =>
      obtain ⟨i, σ1⟩ := p
      simp only [hc] at h
      obtain ⟨d0, hd⟩ := List.length_eq_one.1 hlen1
      cases hld : linkDeps (makeExecutor fuel g) node i σ1 with
      | error err =>
        simp only [hld, finishFrame] at h
        exact Except.noConfusion h
      | ok σ2 =>
        simp only [hld, finishFrame] at h
        have h2 := Except.ok.inj h
        injection h2 with hA2 hB2
        subst hB2
        subst hA2
        obtain ⟨hi, hv1, ⟨nm, hcn, ha1⟩, he1⟩ := constructExec_ok hc
        have len1 : σ1.arena.length = σ.arena.length + 1 := by
          rw [ha1]; simp
        have hr1 : refsOK σ1 := by
          intro id j hj
          rw [hv1] at hj
          have := href id j hj
          omega
        have hiσ1 : i < σ1.arena.length := by omega
        unfold linkDeps at hld
        simp only [hd] at hld
        cases hctl : buildCtl (makeExecutor fuel g) node i σ1 with
        | error err => simp only [hctl] at hld; exact Except.noConfusion hld
        | ok σa =>
          simp only [hctl] at hld
          cases hmd : makeExecutor fuel g d0 σa with
          | error err => simp only [hmd] at hld; exact Except.noConfusion hld
          | ok q =>
            obtain ⟨di, σd⟩ := q
            simp only [hmd] at hld
            have hσ2 : σ2 = dependsOn σd i di := (Except.ok.inj hld).symm
            subst hσ2
            obtain ⟨bd1, bd2, bd3, bd4, bd5, bd6⟩ := buildBasic fuel g _ _ _ _ hmd
            constructor
            · intro hsel
              unfold buildCtl at hctl
              rw [if_pos hsel] at hctl
              cases ht : node.thenId with
              | none =>
                simp only [ht] at hctl
                exact Except.noConfusion hctl
              | some t =>
                cases he : node.elseId with
                | none =>
                  simp only [ht, he] at hctl
                  exact Except.noConfusion hctl
                | some e =>
                  simp only [ht, he] at hctl
                  cases hmt : makeExecutor fuel g t σ1 with
                  | error err =>
                    simp only [hmt] at hctl
                    exact Except.noConfusion hctl
                  | ok pt =>
                    obtain ⟨ti, σt⟩ := pt
                    simp only [hmt] at hctl
                    cases hme : makeExecutor fuel g e σt with
                    | error err =>
                      simp only [hme] at hctl
                      exact Except.noConfusion hctl
                    | ok pe =>
                      obtain ⟨ei, σe⟩ := pe
                      simp only [hme] at hctl
                      have hσa : σa = setElseBody (setThenBody σe i ti) i ei :=
                        (Except.ok.inj hctl).symm
                      subst hσa
                      obtain ⟨bt1, bt2, bt3, bt4, bt5, bt6⟩ :=
                        buildBasic fuel g _ _ _ _ hmt
                      obtain ⟨be1, be2, be3, be4, be5, be6⟩ :=
                        buildBasic fuel g _ _ _ _ hme
                      obtain ⟨hrt, hti⟩ := bt5 hr1
                      obtain ⟨hre, hei⟩ := be5 hrt
                      have hiσe : i < σe.arena.length := by omega
                      have lenA : (setElseBody (setThenBody σe i ti) i
                          ei).arena.length = σe.arena.length := by
                        show (listUpd (listUpd σe.arena i _) i _).length = _
                        rw [listUpd_length, listUpd_length]
                      have hiA : i < (setElseBody (setThenBody σe i ti) i
                          ei).arena.length := by rw [lenA]; exact hiσe
                      have hiInner : i < (listUpd σe.arena i
                          (fun e2 => { e2 with thenBody := some ti })).length := by
                        rw [listUpd_length]; exact hiσe
                      have hgA1 : ((setElseBody (setThenBody σe i ti) i
                          ei).arena.get ⟨i, hiA⟩).thenBody = some ti := by
                        show ((listUpd (listUpd σe.arena i _) i _).get
                          ⟨i, hiA⟩).thenBody = some ti
                        rw [listUpd_get_self _ i _ hiInner hiA,
                          listUpd_get_self _ i _ hiσe hiInner]
                      have hgA2 : ((setElseBody (setThenBody σe i ti) i
                          ei).arena.get ⟨i, hiA⟩).elseBody = some ei := by
                        show ((listUpd (listUpd σe.arena i _) i _).get
                          ⟨i, hiA⟩).elseBody = some ei
                        rw [listUpd_get_self _ i _ hiInner hiA]
                      have hiD : i < σd.arena.length :=
                        lt_of_lt_of_le hiA bd1
                      have hgetD : σd.arena.get ⟨i, hiD⟩ =
                          (setElseBody (setThenBody σe i ti) i ei).arena.get
                            ⟨i, hiA⟩ := bd2 i hiA hiD
                      have lenF : (dependsOn σd i di).arena.length =
                          σd.arena.length := by
                        show (listUpd σd.arena i _).length = _
                        rw [listUpd_length]
                      have hiF : i < (dependsOn σd i di).arena.length := by
                        rw [lenF]; exact hiD
                      refine ⟨hiF, ti, ei, ?_, ?_, ?_, ?_⟩
                      · show ((listUpd σd.arena i _).get ⟨i, hiF⟩).thenBody =
                          some ti
                        rw [listUpd_get_self _ i _ hiD hiF]
                        show (σd.arena.get ⟨i, hiD⟩).thenBody = some ti
                        rw [hgetD]
                        exact hgA1
                      · show ((listUpd σd.arena i _).get ⟨i, hiF⟩).elseBody =
                          some ei
                        rw [listUpd_get_self _ i _ hiD hiF]
                        show (σd.arena.get ⟨i, hiD⟩).elseBody = some ei
                        rw [hgetD]
                        exact hgA2
                      · show ti < (dependsOn σd i di).arena.length
                        rw [lenF]
                        have := bd1
                        rw [lenA] at this
                        omega
                      · show ei < (dependsOn σd i di).arena.length
                        rw [lenF]
                        have := bd1
                        rw [lenA] at this
                        omega
            · intro hloop
              unfold buildCtl at hctl
              rw [if_neg (by rw [hloop]; intro hq; exact Kind.noConfusion hq),
                if_pos hloop] at hctl
              cases hb : node.bodyId with
              | none =>
                simp only [hb] at hctl
                exact Except.noConfusion hctl
              | some b =>
                simp only [hb] at hctl
                cases hmb : makeExecutor fuel g b σ1 with
                | error err =>
                  simp only [hmb] at hctl
                  exact Except.noConfusion hctl
                | ok pb =>
                  obtain ⟨bi, σb⟩ := pb
                  simp only [hmb] at hctl
                  have hσa : σa = setLoopBody σb i bi :=
                    (Except.ok.inj hctl).symm
                  subst hσa
                  obtain ⟨bb1, bb2, bb3, bb4, bb5, bb6⟩ :=
                    buildBasic fuel g _ _ _ _ hmb
                  obtain ⟨hrb, hbi⟩ := bb5 hr1
                  have hiσb : i < σb.arena.length := by omega
                  have lenA : (setLoopBody σb i bi).arena.length =
                      σb.arena.length := by
                    show (listUpd σb.arena i _).length = _
                    rw [listUpd_length]
                  have hiA : i < (setLoopBody σb i bi).arena.length := by
                    rw [lenA]; exact hiσb
                  have hgA : ((setLoopBody σb i bi).arena.get
                      ⟨i, hiA⟩).loopBody = some bi := by
                    show ((listUpd σb.arena i _).get ⟨i, hiA⟩).loopBody =
                      some bi
                    rw [listUpd_get_self _ i _ hiσb hiA]
                  have hiD : i < σd.arena.length := lt_of_lt_of_le hiA bd1
                  have hgetD : σd.arena.get ⟨i, hiD⟩ =
                      (setLoopBody σb i bi).arena.get ⟨i, hiA⟩ := bd2 i hiA hiD
                  have lenF : (dependsOn σd i di).arena.length =
                      σd.arena.length := by
                    show (listUpd σd.arena i _).length = _
                    rw [listUpd_length]
                  have hiF : i < (dependsOn σd i di).arena.length := by
                    rw [lenF]; exact hiD
                  refine ⟨hiF, bi, ?_, ?_⟩
                  · show ((listUpd σd.arena i _).get ⟨i, hiF⟩).loopBody =
                      some bi
                    rw [listUpd_get_self _ i _ hiD hiF]
                    show (σd.arena.get ⟨i, hiD⟩).loopBody = some bi
                    rw [hgetD]
                    exact hgA
                  · show bi < (dependsOn σd i di).arena.length
                    rw [lenF]
                    have := bd1
                    rw [lenA] at this
                    omega

/-- Witness for C7: in gCtl, building the Select node 10 attaches non-null
then and otherwise bodies, and building the Loop node 20 attaches a non-null
loop body. -/
theorem branch_loop_bodies_built_witness :
    (∃ r σfin, makeExecutor 5 gCtl 10 (initState []) = Except.ok (r, σfin) ∧
      ∃ hr : r < σfin.arena.length, ∃ ti ei,
        (σfin.arena.get ⟨r, hr⟩).thenBody = some ti ∧
        (σfin.arena.get ⟨r, hr⟩).elseBody = some ei ∧
        ti < σfin.arena.length ∧ ei < σfin.arena.length) ∧
    (∃ r σfin, makeExecutor 5 gCtl 20 (initState []) = Except.ok (r, σfin) ∧
      ∃ hr : r < σfin.arena.length, ∃ bi,
        (σfin.arena.get ⟨r, hr⟩).loopBody = some bi ∧
        bi < σfin.arena.length) := by
  constructor
  · cases hcr : makeExecutor 5 gCtl 10 (initState []) with
    | error e =>
      exfalso
      have hok : isOkE (makeExecutor 5 gCtl 10 (initState [])) = true := by
        decide
      rw [hcr] at hok
      simp [isOkE] at hok
    | ok p =>
      obtain ⟨r, σfin⟩ := p
      have hx := (branch_loop_bodies_built 5 gCtl 10 (initState [])
        { id := 10, kind := Kind.kSelect, deps := [1], outputVar := "vs",
          thenId := some 2, elseId := some 3, bodyId := none } r σfin
        (fun id j hj => Option.noConfusion hj) rfl rfl rfl hcr).1 rfl
      exact ⟨r, σfin, rfl, hx⟩
  · cases hcr : makeExecutor 5 gCtl 20 (initState []) with
    | error e =>
      exfalso
      have hok : isOkE (makeExecutor 5 gCtl 20 (initState [])) = true := by
        decide
      rw [hcr] at hok
      simp [isOkE] at hok
    | ok p =>
      obtain ⟨r, σfin⟩ := p
      have hx := (branch_loop_bodies_built 5 gCtl 20 (initState [])
        { id := 20, kind := Kind.kLoop, deps := [4], outputVar := "vl",
          thenId := none, elseId := none, bodyId := some 5 } r σfin
        (fun id j hj => Option.noConfusion hj) rfl rfl rfl hcr).2 rfl
      exact ⟨r, σfin, rfl, hx⟩

end NebulaGraph
